import Mathlib

/-!
Verification of the placement-calculator logic of the certificate toolkit.

The definitions below are a shallow embedding of the Python sources:
`auto_certificate_name_filler.py` (class `AutoCertificateApp`), the unnamed
manual-review variant (class `CertificateApp` and the module-level review
dialog, both of which carry identical copies of `calculate_rect`,
`calculate_initial_font_size` and `compute_positions`), and
`clean_participant_names.py`.

Modelling conventions:
* Python ints are `ℤ`; Python floats (the values returned by reportlab's
  `stringWidth` and the slider offsets) are `ℚ`; Python true division `/ 2`
  is rational division.
* The text-measurement capability `stringWidth(text, font, size)` is an
  explicit function parameter of type `String → String → ℤ → ℚ`.
* Python strings are `String`, manipulated through their `List Char` data so
  that every operation is kernel-computable.
-/

namespace CertToolkit

/-- Characters of the regex character class in `sanitize_filename`
(`re.sub(r"[\\/:\*\?\"<>\|]", "_", name)`). -/
def badChars : List Char := ['\\', '/', ':', '*', '?', '\"', '<', '>', '|']

/-- Embedding of `sanitize_filename` from `auto_certificate_name_filler.py`:
every character of the class is replaced by an underscore (a regex
substitution over a character class is a per-character map). -/
def sanitize_filename (name : String) : String :=
  ⟨name.data.map (fun c => if c ∈ badChars then '_' else c)⟩

/-- Base name of the file written by `AutoCertificateApp.generate_certificate`:
`f"certificate_{sanitize_filename(name_text)}.pdf"` (the output directory
prefix is constant within a run and is omitted). -/
def output_filename_auto (name_text : String) : String :=
  "certificate_" ++ sanitize_filename name_text ++ ".pdf"

/-- Embedding of `name_text.replace(' ', '_')` used by the manual-review
variant's `generate_certificate`. -/
def replaceSpaces (name_text : String) : String :=
  ⟨name_text.data.map (fun c => if c = ' ' then '_' else c)⟩

/-- Base name of the file written by `CertificateApp.generate_certificate`
in the manual-review variant: `f"certificate_{name_text.replace(' ', '_')}.pdf"`. -/
def output_filename_manual (name_text : String) : String :=
  "certificate_" ++ replaceSpaces name_text ++ ".pdf"

/-- Embedding of the dict returned by `calculate_rect` (identical in both
app variants). All fields are Python ints: the callers pass integer corner
coordinates and an integer pixmap height. -/
structure RectInfo where
  rect_width : ℤ
  rect_height : ℤ
  x_left : ℤ
  y_bottom : ℤ
  tk_left : ℤ
  tk_top : ℤ
  tk_right : ℤ
  tk_bottom : ℤ
  deriving DecidableEq

/-- Embedding of `calculate_rect(rect_start, rect_end, pix_height)`: converts
two display-coordinate corners (top-left origin, Y down) into a page
coordinate rectangle (bottom-left origin, Y up), plus the normalized
display-space corners (`tk_*`). -/
def calculate_rect (rect_start rect_end : ℤ × ℤ) (pix_height : ℤ) : RectInfo :=
  let x1 := rect_start.1
  let y1 := rect_start.2
  let x2 := rect_end.1
  let y2 := rect_end.2
  let pdf_x1 := x1
  let pdf_y1 := pix_height - y1
  let pdf_x2 := x2
  let pdf_y2 := pix_height - y2
  { rect_width := |pdf_x2 - pdf_x1|
    rect_height := |pdf_y2 - pdf_y1|
    x_left := min pdf_x1 pdf_x2
    y_bottom := min pdf_y1 pdf_y2
    tk_left := min x1 x2
    tk_top := min y1 y2
    tk_right := max x1 x2
    tk_bottom := max y1 y2 }

/-- Embedding of the `while size >= 5` loop body of
`calculate_initial_font_size`. The fuel argument counts the remaining loop
iterations (`size - 4` when the loop is entered with `size ≥ 5`); when it
runs out the loop has fallen below the floor and the function returns `5`. -/
def sizeLoopN (stringWidth : ℤ → ℚ) (rect_width rect_height : ℤ) : ℕ → ℤ → ℤ
  | 0, _ => 5
  | fuel + 1, size =>
      if stringWidth size ≤ (rect_width : ℚ) ∧ size ≤ rect_height then size
      else sizeLoopN stringWidth rect_width rect_height fuel (size - 1)

/-- Embedding of `calculate_initial_font_size(text_value, selected_font)`
(identical in both app variants). `max_size = int(min(rect_height, 120)) or 5`:
since `rect_height` is an int, `int(...)` is the identity, and Python's `or`
replaces the value by `5` exactly when it is `0` (a negative value is truthy
and kept). The loop then scans `size = max_size, max_size - 1, …, 5` and
returns the first size whose measured width fits the rectangle width and
which does not exceed the rectangle height, else `5`. -/
def calculate_initial_font_size (stringWidth : String → String → ℤ → ℚ)
    (text_value selected_font : String) (rect_width rect_height : ℤ) : ℤ :=
  let max_size : ℤ := if min rect_height 120 = 0 then 5 else min rect_height 120
  sizeLoopN (stringWidth text_value selected_font) rect_width rect_height
    (max_size - 4).toNat max_size

/-- Result tuple `(current_font, current_size, adjusted_x, adjusted_y)` of
`compute_positions` in the review dialog of the manual variants. -/
structure PlacementResult where
  font : String
  size : ℤ
  x : ℚ
  y : ℚ
  deriving DecidableEq

/-- Embedding of `compute_positions()` from the manual-review variant:
`current_size = max(5, int(size_var.get()))`, then the centered baseline
anchor inside the selection rectangle, shifted by the offset sliders. The
auto variant's `start_generation` computes the same `x`/`y` with both
offsets absent (zero) and the size supplied by `calculate_initial_font_size`. -/
def compute_positions (stringWidth : String → String → ℤ → ℚ)
    (name_text current_font : String) (rect : RectInfo)
    (size : ℤ) (x_offset y_offset : ℚ) : PlacementResult :=
  let current_size : ℤ := max 5 size
  let text_width : ℚ := stringWidth name_text current_font current_size
  let base_x : ℚ := (rect.x_left : ℚ) + ((rect.rect_width : ℚ) - text_width) / 2
  let base_y : ℚ := (rect.y_bottom : ℚ) + ((rect.rect_height : ℚ) - (current_size : ℚ)) / 2
  { font := current_font
    size := current_size
    x := base_x + x_offset
    y := base_y + y_offset }

/-- Embedding of Python `str.strip()`: drop whitespace from both ends. -/
def pyStrip (s : String) : String :=
  ⟨((s.data.dropWhile Char.isWhitespace).reverse.dropWhile Char.isWhitespace).reverse⟩

/-- Separator `'. '` of `name.split('. ', 1)` in `clean_participant_names.py`. -/
def sepDot : List Char := ['.', ' ']

/-- Test whether `p` is an initial run of `l` (used to locate the first
occurrence of the separator, as Python `str.split` does). -/
def startsWithSeq : List Char → List Char → Bool
  | [], _ => true
  | _ :: _, [] => false
  | a :: as, b :: bs => a == b && startsWithSeq as bs

/-- Suffix of `l` strictly after the first occurrence of `sep`, or `none`
when `sep` does not occur: the semantics of `parts[1]` after
`name.split(sep, 1)` when `len(parts) == 2`. -/
def afterFirst (sep : List Char) : List Char → Option (List Char)
  | [] => none
  | c :: rest =>
      if startsWithSeq sep (c :: rest) then some (List.drop sep.length (c :: rest))
      else afterFirst sep rest

/-- Embedding of the per-line cleaning in `clean_participant_names.py`:
strip the line; drop it when empty; otherwise split at the first `'. '` and
keep the part after it (the whole stripped line when `'. '` is absent). -/
def cleanLine (line : String) : Option String :=
  let name := pyStrip line
  if name = "" then none
  else
    match afterFirst sepDot name.data with
    | some tail => some ⟨tail⟩
    | none => some name

/-- Embedding of the whole script pipeline up to `names_sorted`:
clean every line, drop empties, then `sorted(names, key=len)` (a stable sort
by string length, modelled by `List.mergeSort` with the length order). -/
def names_sorted (lines : List String) : List String :=
  (lines.filterMap cleanLine).mergeSort (fun a b => decide (a.length ≤ b.length))

/-- Toy measurement that is identically zero (the width reportlab's
`stringWidth` returns for the empty string at every size). -/
def swZero : String → String → ℤ → ℚ := fun _ _ _ => 0

/-- Toy measurement `measure(text, font, s) = s`, monotone in the size. -/
def swId : String → String → ℤ → ℚ := fun _ _ s => (s : ℚ)

/-- Toy linear measurement `measure(text, font, s) = 10 * s` (the example
model of spec §8.6), monotone in the size. -/
def swLin : String → String → ℤ → ℚ := fun _ _ s => ((10 * s : ℤ) : ℚ)

/-- Concrete 10 × 10 selection rectangle anchored at the origin. -/
def rectTen : RectInfo := ⟨10, 10, 0, 0, 0, 0, 10, 10⟩

/-- Concrete selection rectangle of width 2 and height 10 at the origin. -/
def rectTwo : RectInfo := ⟨2, 10, 0, 0, 0, 0, 2, 10⟩

/-- Toy measurement that is identically one: positive at every size, as the
width of any non-empty text under a real font provider. -/
def swOne : String → String → ℤ → ℚ := fun _ _ _ => 1

/-- Loop invariant of the downward scan: starting from `size` with fuel
`size - 4`, the loop either returns `5` with no size in `[5, size]`
satisfying the fit condition, or returns the largest size in `[5, size]`
that satisfies it. -/
theorem sizeLoopN_spec (m : ℤ → ℚ) (rw rh : ℤ) :
    ∀ (n : ℕ) (size : ℤ), size = (n : ℤ) + 4 →
      (sizeLoopN m rw rh n size = 5 ∧
        ∀ s : ℤ, 5 ≤ s → s ≤ size → ¬(m s ≤ (rw : ℚ) ∧ s ≤ rh)) ∨
      (5 ≤ sizeLoopN m rw rh n size ∧ sizeLoopN m rw rh n size ≤ size ∧
        (m (sizeLoopN m rw rh n size) ≤ (rw : ℚ) ∧ sizeLoopN m rw rh n size ≤ rh) ∧
        ∀ s : ℤ, sizeLoopN m rw rh n size < s → s ≤ size → ¬(m s ≤ (rw : ℚ) ∧ s ≤ rh)) := by
  intro n
  induction n with
  | zero =>
      intro size hsize
      left
      refine ⟨rfl, fun s h5 hle _ => ?_⟩
      omega
  | succ k ih =>
      intro size hsize
      by_cases hc : m size ≤ (rw : ℚ) ∧ size ≤ rh
      · right
        simp only [sizeLoopN, if_pos hc]
        exact ⟨by omega, le_refl _, hc, fun s hgt hle _ => by omega⟩
      · simp only [sizeLoopN, if_neg hc]
        rcases ih (size - 1) (by omega) with ⟨heq, hnone⟩ | ⟨hge, hle, hcond, hmax⟩
        · left
          refine ⟨heq, fun s h5 hle2 => ?_⟩
          rcases eq_or_lt_of_le hle2 with heqs | hlt
          · subst heqs
            exact hc
          · exact hnone s h5 (by omega)
        · right
          refine ⟨hge, by omega, hcond, fun s hgt hle2 => ?_⟩
          rcases eq_or_lt_of_le hle2 with heqs | hlt
          · subst heqs
            exact hc
          · exact hmax s hgt (by omega)

/-- Characterization of `calculate_initial_font_size` over the claimed range
`[5, min(rect_height, 120)]` with the claimed condition (measured width fits
the rectangle width): the height conjunct of the loop condition is implied by
membership in the range, and the `or 5` and small-height corner cases all
land in the first disjunct. -/
theorem auto_fit_core (sw : String → String → ℤ → ℚ) (text font : String) (rw rh : ℤ) :
    (calculate_initial_font_size sw text font rw rh = 5 ∧
      ∀ s : ℤ, 5 ≤ s → s ≤ min rh 120 → ¬ sw text font s ≤ (rw : ℚ)) ∨
    (5 ≤ calculate_initial_font_size sw text font rw rh ∧
      calculate_initial_font_size sw text font rw rh ≤ min rh 120 ∧
      sw text font (calculate_initial_font_size sw text font rw rh) ≤ (rw : ℚ) ∧
      ∀ s : ℤ, calculate_initial_font_size sw text font rw rh < s → s ≤ min rh 120 →
        ¬ sw text font s ≤ (rw : ℚ)) := by
  by_cases hM : min rh 120 = 0
  · have hrh : rh = 0 := by omega
    subst hrh
    have hcalc : calculate_initial_font_size sw text font rw 0 = 5 := by
      simp only [calculate_initial_font_size, hM, if_pos]
      norm_num [sizeLoopN]
    left
    refine ⟨hcalc, fun s h5 hsM _ => ?_⟩
    omega
  · have hcalc : calculate_initial_font_size sw text font rw rh
        = sizeLoopN (sw text font) rw rh (min rh 120 - 4).toNat (min rh 120) := by
      simp only [calculate_initial_font_size, if_neg hM]
    by_cases h5 : 5 ≤ min rh 120
    · have hn : min rh 120 = ((min rh 120 - 4).toNat : ℤ) + 4 := by omega
      rcases sizeLoopN_spec (sw text font) rw rh (min rh 120 - 4).toNat (min rh 120) hn with
        ⟨heq, hnone⟩ | ⟨hge, hle, ⟨hw, hh⟩, hmax⟩
      · left
        rw [hcalc]
        exact ⟨heq, fun s hs5 hsM hms => hnone s hs5 hsM ⟨hms, by omega⟩⟩
      · right
        rw [hcalc]
        exact ⟨hge, hle, hw, fun s hgt hsM hms => hmax s hgt hsM ⟨hms, by omega⟩⟩
    · have hfuel : (min rh 120 - 4).toNat = 0 := by omega
      have hcalc5 : calculate_initial_font_size sw text font rw rh = 5 := by
        rw [hcalc, hfuel]
        rfl
      left
      refine ⟨hcalc5, fun s hs5 hsM _ => ?_⟩
      omega

/-- C1: for every rectangle and every measurement function monotonically
non-decreasing in the size, `calculate_initial_font_size` returns the unique
largest integer size in `[5, min(rect_height, 120)]` whose measured width
fits `rect_width`; when no size in that range fits, it returns `5`. -/
theorem auto_fit_largest (sw : String → String → ℤ → ℚ) (text font : String)
    (rw rh : ℤ)
    (hmono : ∀ a b : ℤ, a ≤ b → sw text font a ≤ sw text font b) :
    (∀ s : ℤ, 5 ≤ s → s ≤ min rh 120 → sw text font s ≤ (rw : ℚ) →
      s ≤ calculate_initial_font_size sw text font rw rh ∧
      5 ≤ calculate_initial_font_size sw text font rw rh ∧
      calculate_initial_font_size sw text font rw rh ≤ min rh 120 ∧
      sw text font (calculate_initial_font_size sw text font rw rh) ≤ (rw : ℚ)) ∧
    ((∀ s : ℤ, 5 ≤ s → s ≤ min rh 120 → ¬ sw text font s ≤ (rw : ℚ)) →
      calculate_initial_font_size sw text font rw rh = 5) := by
  rcases auto_fit_core sw text font rw rh with ⟨heq, hnone⟩ | ⟨hge, hleM, hfit, hmax⟩
  · exact ⟨fun s hs5 hsM hms => absurd hms (hnone s hs5 hsM), fun _ => heq⟩
  · refine ⟨fun s hs5 hsM hms => ⟨?_, hge, hleM, hfit⟩,
      fun hno => absurd hfit (hno _ hge hleM)⟩
    by_contra hgt
    push_neg at hgt
    exact hmax s hgt hsM hms

/-- Witness for C1 at the toy linear model of spec §8.6: rectangle
`200 × 40`, `measure(s) = 10 * s`; the result is `20`, the largest size with
`10 * size ≤ 200` and `size ≤ 40`. -/
theorem auto_fit_largest_witness :
    (∀ a b : ℤ, a ≤ b → swLin "A" "F" a ≤ swLin "A" "F" b) ∧
    ((∀ s : ℤ, 5 ≤ s → s ≤ min (40 : ℤ) 120 → swLin "A" "F" s ≤ ((200 : ℤ) : ℚ) →
      s ≤ calculate_initial_font_size swLin "A" "F" 200 40 ∧
      5 ≤ calculate_initial_font_size swLin "A" "F" 200 40 ∧
      calculate_initial_font_size swLin "A" "F" 200 40 ≤ min (40 : ℤ) 120 ∧
      swLin "A" "F" (calculate_initial_font_size swLin "A" "F" 200 40) ≤ ((200 : ℤ) : ℚ)) ∧
    ((∀ s : ℤ, 5 ≤ s → s ≤ min (40 : ℤ) 120 → ¬ swLin "A" "F" s ≤ ((200 : ℤ) : ℚ)) →
      calculate_initial_font_size swLin "A" "F" 200 40 = 5)) ∧
    calculate_initial_font_size swLin "A" "F" 200 40 = 20 := by
  have hmono : ∀ a b : ℤ, a ≤ b → swLin "A" "F" a ≤ swLin "A" "F" b := by
    intro a b hab
    simp only [swLin]
    exact_mod_cast (by omega : (10 * a : ℤ) ≤ 10 * b)
  exact ⟨hmono, auto_fit_largest swLin "A" "F" 200 40 hmono, by decide⟩

/-- C4 (amended): the returned size always lies in
`[5, max(5, min(rect_height, 120))]`; and a zero-width rectangle yields the
minimum `5` provided the measured width is positive at every size (as for
non-empty text under a real font provider). As literally stated — for every
measurement function — the zero-width part is false: a measurement that can
return `0` (e.g. the empty string) makes the width check `0 <= 0` succeed,
see the counterexample. -/
theorem auto_fit_bounds (sw : String → String → ℤ → ℚ) (text font : String) (rw rh : ℤ) :
    5 ≤ calculate_initial_font_size sw text font rw rh ∧
    calculate_initial_font_size sw text font rw rh ≤ max 5 (min rh 120) ∧
    ((∀ s : ℤ, 0 < sw text font s) → calculate_initial_font_size sw text font 0 rh = 5) := by
  refine ⟨?_, ?_, ?_⟩
  · rcases auto_fit_core sw text font rw rh with ⟨heq, -⟩ | ⟨hge, -, -, -⟩
    · omega
    · exact hge
  · rcases auto_fit_core sw text font rw rh with ⟨heq, -⟩ | ⟨-, hleM, -, -⟩
    · omega
    · omega
  · intro hpos
    rcases auto_fit_core sw text font 0 rh with ⟨heq, -⟩ | ⟨-, -, hfit, -⟩
    · exact heq
    · have h0 : ((0 : ℤ) : ℚ) = 0 := by norm_num
      rw [h0] at hfit
      exact absurd hfit (not_le.mpr (hpos _))

/-- Counterexample to C4 as stated: with the measurement that is identically
zero (the width reportlab reports for the empty string at every size), a
zero-width rectangle of height 50 yields size 50, not the minimum 5. -/
theorem auto_fit_zero_width_cex :
    calculate_initial_font_size swZero "" "F" 0 50 = 50 ∧ (50 : ℤ) ≠ 5 :=
  ⟨by decide, by decide⟩

/-- Witness for the amended C4: a strictly positive measurement on a
zero-width rectangle does return the minimum size 5. -/
theorem auto_fit_bounds_witness :
    (∀ s : ℤ, 0 < swOne "A" "F" s) ∧ calculate_initial_font_size swOne "A" "F" 0 9 = 5 := by
  have hpos : ∀ s : ℤ, 0 < swOne "A" "F" s := fun s => by norm_num [swOne]
  exact ⟨hpos, (auto_fit_bounds swOne "A" "F" 0 9).2.2 hpos⟩

/-- C2 (amended): for every size of at least the fixed minimum 5 (sizes
below 5 are first clamped to 5 by `current_size = max(5, ...)`, see the
counterexample), the anchor is exactly the centered position shifted by the
offsets, with no clamping of the anchor itself — the formula holds even when
it places the anchor outside the rectangle or the page. -/
theorem compute_positions_formula (sw : String → String → ℤ → ℚ)
    (text font : String) (rect : RectInfo) (size : ℤ) (h5 : 5 ≤ size) (dx dy : ℚ) :
    (compute_positions sw text font rect size dx dy).x
      = (rect.x_left : ℚ) + ((rect.rect_width : ℚ) - sw text font size) / 2 + dx ∧
    (compute_positions sw text font rect size dx dy).y
      = (rect.y_bottom : ℚ) + ((rect.rect_height : ℚ) - (size : ℚ)) / 2 + dy := by
  have hmax : max (5 : ℤ) size = size := max_eq_right h5
  constructor <;> simp [compute_positions, hmax]

/-- Counterexample to C2 as stated: at the positive size 1 the code clamps
the size to 5 before computing the anchor, so the returned `y` differs from
the claimed `rect.bottom + (rect.height - size) / 2 + y_offset`. -/
theorem compute_positions_clamp_cex :
    (compute_positions swId "A" "F" rectTen 1 0 0).y
      ≠ (rectTen.y_bottom : ℚ) + ((rectTen.rect_height : ℚ) - ((1 : ℤ) : ℚ)) / 2 + 0 := by
  norm_num [compute_positions, rectTen, swId]

/-- Witness for the amended C2 at size 8 with offsets 3 and 4. -/
theorem compute_positions_formula_witness :
    (5 : ℤ) ≤ 8 ∧
    ((compute_positions swId "A" "F" rectTen 8 3 4).x
       = (rectTen.x_left : ℚ) + ((rectTen.rect_width : ℚ) - swId "A" "F" 8) / 2 + 3 ∧
     (compute_positions swId "A" "F" rectTen 8 3 4).y
       = (rectTen.y_bottom : ℚ) + ((rectTen.rect_height : ℚ) - ((8 : ℤ) : ℚ)) / 2 + 4) :=
  ⟨by decide, compute_positions_formula swId "A" "F" rectTen 8 (by decide) 3 4⟩

/-- C5: offset linearity — the anchor with offsets `(dx, dy)` is the anchor
with zero offsets shifted by exactly `(dx, dy)`, for every size (also the
clamped ones, since both sides clamp identically). -/
theorem compute_positions_offset_linear (sw : String → String → ℤ → ℚ)
    (text font : String) (rect : RectInfo) (size : ℤ) (dx dy : ℚ) :
    (compute_positions sw text font rect size dx dy).x
      = (compute_positions sw text font rect size 0 0).x + dx ∧
    (compute_positions sw text font rect size dx dy).y
      = (compute_positions sw text font rect size 0 0).y + dy := by
  constructor <;> simp [compute_positions]

/-- C6 (amended): for sizes of at least the fixed minimum 5 (below it the
clamp makes the hypothesis about `measure(size)` speak about a different
width than the one actually used, see the counterexample), a fitting text is
centered within the horizontal bounds of the rectangle. -/
theorem centering_in_bounds (sw : String → String → ℤ → ℚ)
    (text font : String) (rect : RectInfo) (size : ℤ) (h5 : 5 ≤ size)
    (hfit : sw text font size ≤ (rect.rect_width : ℚ)) :
    (rect.x_left : ℚ) ≤ (compute_positions sw text font rect size 0 0).x ∧
    (compute_positions sw text font rect size 0 0).x + sw text font size
      ≤ (rect.x_left : ℚ) + (rect.rect_width : ℚ) := by
  have hmax : max (5 : ℤ) size = size := max_eq_right h5
  simp only [compute_positions, hmax, add_zero]
  constructor
  · linarith
  · linarith

/-- Counterexample to C6 as stated: at size 1 (clamped to 5) with
`measure(s) = s` and a rectangle of width 2, the text of measured width 1
fits, yet the anchor lies strictly left of the rectangle. -/
theorem centering_in_bounds_cex :
    swId "A" "F" 1 ≤ (rectTwo.rect_width : ℚ) ∧
    ¬ (rectTwo.x_left : ℚ) ≤ (compute_positions swId "A" "F" rectTwo 1 0 0).x := by
  constructor
  · norm_num [swId, rectTwo]
  · norm_num [compute_positions, swId, rectTwo]

/-- Witness for the amended C6 at size 6 in the 10 × 10 rectangle. -/
theorem centering_in_bounds_witness :
    (5 : ℤ) ≤ 6 ∧ swId "A" "F" 6 ≤ (rectTen.rect_width : ℚ) ∧
    ((rectTen.x_left : ℚ) ≤ (compute_positions swId "A" "F" rectTen 6 0 0).x ∧
     (compute_positions swId "A" "F" rectTen 6 0 0).x + swId "A" "F" 6
       ≤ (rectTen.x_left : ℚ) + (rectTen.rect_width : ℚ)) := by
  have hfit : swId "A" "F" 6 ≤ (rectTen.rect_width : ℚ) := by norm_num [swId, rectTen]
  exact ⟨by decide, hfit, centering_in_bounds swId "A" "F" rectTen 6 (by decide) hfit⟩

/-- C3: the display-to-page conversion returns width `|x2 - x1|`, height
`|y2 - y1|`, left `min(x1, x2)`, bottom `page_height - max(y1, y2)`; the
axis-bounds instance `convert((0,0),(W,H),H)` is the full-page rectangle,
and equal corners give a zero-size rectangle. -/
theorem calculate_rect_spec (x1 y1 x2 y2 H W Hp : ℤ) (hW : 0 ≤ W) (hH : 0 ≤ Hp) :
    (calculate_rect (x1, y1) (x2, y2) H).rect_width = |x2 - x1| ∧
    (calculate_rect (x1, y1) (x2, y2) H).rect_height = |y2 - y1| ∧
    (calculate_rect (x1, y1) (x2, y2) H).x_left = min x1 x2 ∧
    (calculate_rect (x1, y1) (x2, y2) H).y_bottom = H - max y1 y2 ∧
    calculate_rect (0, 0) (W, Hp) Hp =
      { rect_width := W, rect_height := Hp, x_left := 0, y_bottom := 0,
        tk_left := 0, tk_top := 0, tk_right := W, tk_bottom := Hp } ∧
    (calculate_rect (x1, y1) (x1, y1) H).rect_width = 0 ∧
    (calculate_rect (x1, y1) (x1, y1) H).rect_height = 0 := by
  refine ⟨rfl, ?_, rfl, ?_, ?_, ?_, ?_⟩
  · show |(H - y2) - (H - y1)| = |y2 - y1|
    rw [show (H - y2) - (H - y1) = -(y2 - y1) by ring, abs_neg]
  · show min (H - y1) (H - y2) = H - max y1 y2
    omega
  · simp only [calculate_rect, RectInfo.mk.injEq]
    refine ⟨?_, ?_, ?_, ?_, ?_, ?_, ?_, ?_⟩
    · rw [show (W - 0 : ℤ) = W by ring]
      exact abs_of_nonneg hW
    · rw [show ((Hp - Hp) - (Hp - 0) : ℤ) = -Hp by ring, abs_neg]
      exact abs_of_nonneg hH
    · omega
    · omega
    · omega
    · omega
    · omega
    · omega
  · show |x1 - x1| = 0
    simp
  · show |(H - y1) - (H - y1)| = 0
    simp

/-- Witness for C3 at corners (1,2), (3,4), page height 7, and page size 5 × 6. -/
theorem calculate_rect_spec_witness :
    (0 : ℤ) ≤ 5 ∧ (0 : ℤ) ≤ 6 ∧
    ((calculate_rect (1, 2) (3, 4) 7).rect_width = |(3 : ℤ) - 1| ∧
     (calculate_rect (1, 2) (3, 4) 7).rect_height = |(4 : ℤ) - 2| ∧
     (calculate_rect (1, 2) (3, 4) 7).x_left = min (1 : ℤ) 3 ∧
     (calculate_rect (1, 2) (3, 4) 7).y_bottom = 7 - max (2 : ℤ) 4 ∧
     calculate_rect (0, 0) (5, 6) 6 =
       { rect_width := 5, rect_height := 6, x_left := 0, y_bottom := 0,
         tk_left := 0, tk_top := 0, tk_right := 5, tk_bottom := 6 } ∧
     (calculate_rect (1, 2) (1, 2) 7).rect_width = 0 ∧
     (calculate_rect (1, 2) (1, 2) 7).rect_height = 0) :=
  ⟨by decide, by decide, calculate_rect_spec 1 2 3 4 7 5 6 (by decide) (by decide)⟩

/-- C7: swapping the two corner points leaves every field of the returned
rectangle unchanged. -/
theorem calculate_rect_swap (p q : ℤ × ℤ) (H : ℤ) :
    calculate_rect p q H = calculate_rect q p H := by
  obtain ⟨x1, y1⟩ := p
  obtain ⟨x2, y2⟩ := q
  simp only [calculate_rect, RectInfo.mk.injEq]
  exact ⟨abs_sub_comm _ _, abs_sub_comm _ _, min_comm _ _, min_comm _ _,
    min_comm _ _, min_comm _ _, max_comm _ _, max_comm _ _⟩

/-- C8 (amended): the map from recipient name to output filename is
injective only up to the sanitization step — two names whose sanitized forms
(auto variant) or space-replaced forms (manual variant) differ get different
filenames. Distinct names that sanitize alike collide, see the
counterexample. -/
theorem output_filename_injective (n1 n2 : String) :
    (sanitize_filename n1 ≠ sanitize_filename n2 →
      output_filename_auto n1 ≠ output_filename_auto n2) ∧
    (replaceSpaces n1 ≠ replaceSpaces n2 →
      output_filename_manual n1 ≠ output_filename_manual n2) := by
  constructor
  · intro h heq
    apply h
    apply String.ext
    have hd := congrArg String.data heq
    simp only [output_filename_auto, String.data_append] at hd
    exact List.append_cancel_left (List.append_cancel_right hd)
  · intro h heq
    apply h
    apply String.ext
    have hd := congrArg String.data heq
    simp only [output_filename_manual, String.data_append] at hd
    exact List.append_cancel_left (List.append_cancel_right hd)

/-- Counterexample to C8 as stated: the distinct names `a/b` and `a_b`
produce the same filename in the auto variant, and the distinct names
`a b` and `a_b` produce the same filename in the manual variants. -/
theorem output_filename_collision_cex :
    output_filename_auto "a/b" = output_filename_auto "a_b" ∧ ("a/b" : String) ≠ "a_b" ∧
    output_filename_manual "a b" = output_filename_manual "a_b" ∧ ("a b" : String) ≠ "a_b" :=
  ⟨by decide, by decide, by decide, by decide⟩

/-- Witness for the amended C8 on the names `Alice` and `Bob`. -/
theorem output_filename_injective_witness :
    sanitize_filename "Alice" ≠ sanitize_filename "Bob" ∧
    replaceSpaces "Alice" ≠ replaceSpaces "Bob" ∧
    output_filename_auto "Alice" ≠ output_filename_auto "Bob" ∧
    output_filename_manual "Alice" ≠ output_filename_manual "Bob" := by
  have h1 : sanitize_filename "Alice" ≠ sanitize_filename "Bob" := by decide
  have h2 : replaceSpaces "Alice" ≠ replaceSpaces "Bob" := by decide
  exact ⟨h1, h2, (output_filename_injective "Alice" "Bob").1 h1,
    (output_filename_injective "Alice" "Bob").2 h2⟩

/-- C9: `sanitize_filename` maps each character of the forbidden class to an
underscore and leaves the rest alone; its result never contains a forbidden
character, and it is the identity on strings free of them. -/
theorem sanitize_filename_spec (s : String) :
    (sanitize_filename s).data = s.data.map (fun c => if c ∈ badChars then '_' else c) ∧
    (∀ c ∈ (sanitize_filename s).data, c ∉ badChars) ∧
    ((∀ c ∈ s.data, c ∉ badChars) → sanitize_filename s = s) := by
  refine ⟨rfl, ?_, ?_⟩
  · intro c hc
    simp only [sanitize_filename] at hc
    rcases List.mem_map.mp hc with ⟨a, -, rfl⟩
    by_cases ha : a ∈ badChars
    · simp only [if_pos ha]
      decide
    · simpa [if_neg ha] using ha
  · intro hclean
    apply String.ext
    show s.data.map _ = s.data
    have hmap : s.data.map (fun c => if c ∈ badChars then '_' else c) = s.data.map id :=
      List.map_congr_left (fun a ha => by simp [hclean a ha])
    rw [hmap, List.map_id]

/-- Witness for C9 on the clean name `Alice`. -/
theorem sanitize_filename_spec_witness :
    (∀ c ∈ ("Alice" : String).data, c ∉ badChars) ∧ sanitize_filename "Alice" = "Alice" := by
  have h : ∀ c ∈ ("Alice" : String).data, c ∉ badChars := by decide
  exact ⟨h, (sanitize_filename_spec "Alice").2.2 h⟩

/-- Soundness of the initial-run test: it answers `true` exactly when the
probed list extends the pattern. -/
theorem startsWithSeq_iff (p : List Char) :
    ∀ l : List Char, startsWithSeq p l = true ↔ ∃ t, l = p ++ t := by
  induction p with
  | nil =>
      intro l
      simp [startsWithSeq]
  | cons a as ih =>
      intro l
      cases l with
      | nil =>
          simp [startsWithSeq]
      | cons b bs =>
          simp only [startsWithSeq, Bool.and_eq_true, beq_iff_eq, ih bs, List.cons_append,
            List.cons.injEq]
          constructor
          · rintro ⟨rfl, t, rfl⟩
            exact ⟨t, rfl, rfl⟩
          · rintro ⟨t, rfl, rfl⟩
            exact ⟨rfl, t, rfl⟩

/-- When `afterFirst` finds no separator, the separator starts at no
position of the list. -/
theorem afterFirst_none_spec (sep : List Char) (hsep : sep ≠ []) :
    ∀ l : List Char, afterFirst sep l = none →
      ∀ i : ℕ, startsWithSeq sep (l.drop i) = false := by
  intro l
  induction l with
  | nil =>
      intro _ i
      rw [List.drop_nil]
      cases sep with
      | nil => exact absurd rfl hsep
      | cons a as => rfl
  | cons c rest ih =>
      intro h i
      by_cases hsw : startsWithSeq sep (c :: rest) = true
      · rw [afterFirst, if_pos hsw] at h
        exact absurd h (by simp)
      · have hrec : afterFirst sep rest = none := by
          rwa [afterFirst, if_neg hsw] at h
        cases i with
        | zero =>
            rw [List.drop_zero, Bool.eq_false_iff]
            exact hsw
        | succ j =>
            rw [List.drop_succ_cons]
            exact ih hrec j

/-- When `afterFirst` returns a suffix, the list splits as
`p ++ sep ++ suffix` with the separator starting at no position strictly
before `p.length` — the occurrence found is the first one. -/
theorem afterFirst_some_spec (sep : List Char) :
    ∀ l r : List Char, afterFirst sep l = some r →
      ∃ p : List Char, l = (p ++ sep) ++ r ∧
        ∀ i < p.length, startsWithSeq sep (l.drop i) = false := by
  intro l
  induction l with
  | nil =>
      intro r h
      exact absurd h (by rw [afterFirst]; simp)
  | cons c rest ih =>
      intro r h
      by_cases hsw : startsWithSeq sep (c :: rest) = true
      · rcases (startsWithSeq_iff sep (c :: rest)).mp hsw with ⟨t, ht⟩
        have hr : r = t := by
          rw [afterFirst, if_pos hsw, ht, List.drop_left] at h
          exact (Option.some.injEq _ _ ▸ h).symm
        subst hr
        refine ⟨[], by simpa using ht, fun i hi => absurd hi (by simp)⟩
      · have hrec : afterFirst sep rest = some r := by
          rwa [afterFirst, if_neg hsw] at h
        rcases ih r hrec with ⟨p, hp, hfirst⟩
        refine ⟨c :: p, by simp [hp], fun i hi => ?_⟩
        cases i with
        | zero =>
            rw [List.drop_zero, Bool.eq_false_iff]
            exact hsw
        | succ j =>
            rw [List.drop_succ_cons]
            exact hfirst j (by simpa using hi)

/-- C10: the output of the cleaning script is a permutation of the cleaned
non-empty stripped lines in non-decreasing order of length, where each
retained line is the part after the first occurrence of `'. '` in the
stripped line (the whole stripped line when `'. '` is absent), and empty
lines are dropped. -/
theorem names_sorted_spec (lines : List String) :
    List.Perm (names_sorted lines) (lines.filterMap cleanLine) ∧
    List.Pairwise (fun a b : String => a.length ≤ b.length) (names_sorted lines) ∧
    ∀ line : String,
      (cleanLine line = none ↔ pyStrip line = "") ∧
      ∀ nm : String, cleanLine line = some nm →
        (nm = pyStrip line ∧
            ∀ i : ℕ, startsWithSeq sepDot ((pyStrip line).data.drop i) = false) ∨
        (∃ p : List Char, (pyStrip line).data = (p ++ sepDot) ++ nm.data ∧
            ∀ i < p.length, startsWithSeq sepDot ((pyStrip line).data.drop i) = false) := by
  refine ⟨List.mergeSort_perm _ _, ?_, ?_⟩
  · have hs := @List.sorted_mergeSort String (fun a b => decide (a.length ≤ b.length))
      (fun a b c hab hbc => by
        simp only [decide_eq_true_eq] at hab hbc ⊢
        omega)
      (fun a b => by
        simp only [Bool.or_eq_true, decide_eq_true_eq]
        omega)
      (lines.filterMap cleanLine)
    exact hs.imp (fun h => by simpa using of_decide_eq_true h)
  · intro line
    constructor
    · by_cases hemp : pyStrip line = ""
      · simp [cleanLine, hemp]
      · simp only [cleanLine, if_neg hemp]
        cases haf : afterFirst sepDot (pyStrip line).data <;> simp [hemp]
    · intro nm hnm
      by_cases hemp : pyStrip line = ""
      · rw [cleanLine] at hnm
        simp only [hemp, if_pos] at hnm
        exact Option.noConfusion hnm
      · cases haf : afterFirst sepDot (pyStrip line).data with
        | none =>
            left
            have hnm2 : nm = pyStrip line := by
              rw [cleanLine] at hnm
              simp only [if_neg hemp, haf] at hnm
              exact (Option.some.inj hnm).symm
            exact ⟨hnm2, fun i => afterFirst_none_spec sepDot (by decide) _ haf i⟩
        | some tail =>
            right
            have hnm2 : nm = (⟨tail⟩ : String) := by
              rw [cleanLine] at hnm
              simp only [if_neg hemp, haf] at hnm
              exact (Option.some.inj hnm).symm
            subst hnm2
            rcases afterFirst_some_spec sepDot _ tail haf with ⟨p, hp, hfirst⟩
            exact ⟨p, hp, hfirst⟩

/-- Witness for C10 on the line `1. Bob`: it is cleaned to `Bob`, the part
after the first occurrence of `'. '`. -/
theorem names_sorted_spec_witness :
    cleanLine "1. Bob" = some "Bob" ∧
    ((("Bob" : String) = pyStrip "1. Bob" ∧
        ∀ i : ℕ, startsWithSeq sepDot ((pyStrip "1. Bob").data.drop i) = false) ∨
     (∃ p : List Char, (pyStrip "1. Bob").data = (p ++ sepDot) ++ ("Bob" : String).data ∧
        ∀ i < p.length, startsWithSeq sepDot ((pyStrip "1. Bob").data.drop i) = false)) := by
  have h : cleanLine "1. Bob" = some "Bob" := by decide
  exact ⟨h, ((names_sorted_spec ["1. Bob"]).2.2 "1. Bob").2 "Bob" h⟩

end CertToolkit
